import Mathlib

/-!
# Verification of the sales-analytics ingestion/aggregation pipeline

Shallow embedding of the Python sources in `src/` :

* `src/utils/file_handler.py` — `parse_transactions`, `validate_and_filter`
* `src/utils/data_processor.py` — `daily_sales_trend`, `find_peak_sales_day`,
  `top_selling_products`
* `src/utils/analytics.py` — `compute_kpis`
* `src/utils/api_client.py` — `ProductAPIClient.get_product_info`

Modelling conventions:

* Python `str` is modelled by `String`; all character-level work is done on
  `String.data : List Char`.  Python string comparison (`min`, `sorted`, `<`)
  is code-point lexicographic and is modelled by `lexLe` below.
* Python `float` is modelled by `ℚ` (exact rational arithmetic); `round(x, 2)`
  is modelled by `round2`, decimal rounding to 2 places (the spec, §4.4,
  allows half-up rounding, which is what Mathlib's `round` provides).
* Python `dict` (insertion-ordered) is modelled by association lists in
  insertion order; `defaultdict` accumulation keyed in first-seen order is
  modelled via `dedupFirst` over the key stream.
* Python's stable `list.sort` is modelled by the stable insertion sort
  `insertionSortBy`; a stable sort is uniquely determined by the key
  function, so this is extensionally the sort the source performs.
* Console `print` calls are side effects with no influence on returned
  values and are not modelled.
-/

namespace SalesAnalytics

/-! ## Generic list machinery -/

/-- Code-point lexicographic `≤` on character lists: the order Python uses
for string comparison (`min`, `sorted`, `<` on `str`). -/
def lexLe : List Char → List Char → Bool
  | [], _ => true
  | _ :: _, [] => false
  | a :: as, b :: bs =>
    if a.toNat < b.toNat then true
    else if b.toNat < a.toNat then false
    else lexLe as bs

/-- First-occurrence deduplication: keeps the first occurrence of each
element, in order of first appearance.  This is the key order of a Python
`dict`/`defaultdict` populated by iteration. -/
def dedupFirst {α : Type} [DecidableEq α] : List α → List α
  | [] => []
  | x :: xs => x :: (dedupFirst xs).filter (fun y => decide (y ≠ x))

/-- Insert `x` into `l` keeping `l`'s order, placing `x` before the first
element `y` with `le x y`. -/
def insertLe {α : Type} (le : α → α → Bool) (x : α) : List α → List α
  | [] => [x]
  | y :: ys => if le x y then x :: y :: ys else y :: insertLe le x ys

/-- Stable insertion sort with respect to the boolean relation `le`.
Extensionally equal to Python's stable `list.sort` for the same key. -/
def insertionSortBy {α : Type} (le : α → α → Bool) : List α → List α
  | [] => []
  | x :: xs => insertLe le x (insertionSortBy le xs)

/-- Position of the first occurrence of `a` in `l` (length of `l` if absent). -/
def rankIn {α : Type} [DecidableEq α] : List α → α → Nat
  | [], _ => 0
  | x :: xs, a => if x = a then 0 else rankIn xs a + 1

/-! ## Character/string helpers (Python `str` methods) -/

/-- Python `s.strip()`: remove leading and trailing whitespace. -/
def stripChars (l : List Char) : List Char :=
  ((l.dropWhile Char.isWhitespace).reverse.dropWhile Char.isWhitespace).reverse

/-- Python `s.strip()` at `String` level. -/
def pyStrip (s : String) : String := ⟨stripChars s.data⟩

/-- Python `s.startswith(c)` for a single-character pattern `c`. -/
def beginsWith (c : Char) (s : String) : Bool :=
  match s.data with
  | [] => false
  | d :: _ => d == c

/-- Python `s.split(sep)` for a single-character separator: splits on every
occurrence, keeping empty pieces (`"".split(sep) == [""]`). -/
def splitChar (sep : Char) : List Char → List (List Char)
  | [] => [[]]
  | c :: rest =>
    let r := splitChar sep rest
    if c == sep then [] :: r
    else
      match r with
      | [] => [[c]]
      | h :: t => (c :: h) :: t

/-- Numeric value of a digit string (no validity check). -/
def digitsVal (l : List Char) : Nat :=
  l.foldl (fun n c => 10 * n + (c.toNat - 48)) 0

/-- The value of a non-empty all-digit string, `none` otherwise. -/
def natOfDigits (l : List Char) : Option Nat :=
  if l.isEmpty then none
  else if l.all Char.isDigit then some (digitsVal l) else none

/-- Python `int(s)` on the decimal forms this pipeline produces: optional
sign followed by digits.  (Whitespace is already stripped by the caller;
underscore separators and other exotic forms are not modelled.) -/
def pyIntChars : List Char → Option Int
  | '+' :: rest => (natOfDigits rest).map (fun n => (n : Int))
  | '-' :: rest => (natOfDigits rest).map (fun n => -(n : Int))
  | l => (natOfDigits l).map (fun n => (n : Int))

/-- Python `float(s)` on plain decimal forms: optional sign, digits with an
optional single decimal point, at least one digit overall.  Exponents,
`inf` and `nan` are not modelled.  The value is exact (`ℚ`). -/
def pyFloatMag (l : List Char) : Option ℚ :=
  match splitChar '.' l with
  | [ip] => (natOfDigits ip).map (fun n => (n : ℚ))
  | [ip, fp] =>
    if (ip.isEmpty && fp.isEmpty) || !(ip.all Char.isDigit) || !(fp.all Char.isDigit) then
      none
    else
      some ((digitsVal ip : ℚ) + (digitsVal fp : ℚ) / (10 : ℚ) ^ fp.length)
  | _ => none

/-- Python `float(s)` with optional sign. -/
def pyFloatChars : List Char → Option ℚ
  | '+' :: rest => pyFloatMag rest
  | '-' :: rest => (pyFloatMag rest).map (fun q => -q)
  | l => pyFloatMag l

/-- Python `round(x, 2)` modelled as exact decimal rounding to 2 places
(half-up; spec §4.4 allows half-to-even or half-up). -/
def round2 (q : ℚ) : ℚ := (round (q * 100) : ℚ) / 100

/-! ## `file_handler.parse_transactions` -/

/-- One parsed transaction row: the dictionary produced by
`parse_transactions` (all fields stripped, `Quantity` converted to `int`,
`UnitPrice` to `float`, commas removed from `ProductName`). -/
structure ParsedRow where
  transactionID : String
  date : String
  productID : String
  productName : String
  quantity : Int
  unitPrice : ℚ
  customerID : String
  region : String
deriving DecidableEq, Repr

/-- The body of the `parse_transactions` loop for one raw line:
`parts = [p.strip() for p in line.split("|")]`, `if len(parts) != 8:
continue`, comma cleanup, `int`/`float` conversion (a `ValueError` skips the
line). -/
def parseLine (line : String) : Option ParsedRow :=
  let parts := (splitChar '|' line.data).map stripChars
  if h : parts.length = 8 then
    let txid := parts.get ⟨0, by omega⟩
    let dt := parts.get ⟨1, by omega⟩
    let pid := parts.get ⟨2, by omega⟩
    let pname := (parts.get ⟨3, by omega⟩).filter (fun c => !(c == ','))
    let qty := (parts.get ⟨4, by omega⟩).filter (fun c => !(c == ','))
    let price := (parts.get ⟨5, by omega⟩).filter (fun c => !(c == ','))
    let cid := parts.get ⟨6, by omega⟩
    let reg := parts.get ⟨7, by omega⟩
    match pyIntChars qty, pyFloatChars price with
    | some q, some p => some ⟨⟨txid⟩, ⟨dt⟩, ⟨pid⟩, ⟨pname⟩, q, p, ⟨cid⟩, ⟨reg⟩⟩
    | _, _ => none
  else none

/-- `file_handler.parse_transactions`: parse every raw line, skipping lines
with the wrong field count or unconvertible numeric fields. -/
def parse_transactions (raw_lines : List String) : List ParsedRow :=
  raw_lines.filterMap parseLine

/-! ## `file_handler.validate_and_filter` -/

/-- The validation checks of `validate_and_filter`, in source order:
required fields present and non-empty (on a `ParsedRow` the `Quantity` and
`UnitPrice` entries are an `int` and a `float`, which never equal `None` or
`""`, so the required-field check constrains exactly the six string
fields); `int(Quantity) > 0` and `float(UnitPrice) > 0` (the conversions
are identities on already-typed values); and the `T`/`P`/`C` prefix
checks.  The row is accepted iff every check passes (in the source, the
first failing check raises and the row is counted invalid; for the
accept/reject outcome this is the conjunction below). -/
def validRow (t : ParsedRow) : Bool :=
  !(t.transactionID == "") && !(t.date == "") && !(t.productID == "")
    && !(t.productName == "") && !(t.customerID == "") && !(t.region == "")
    && decide (0 < t.quantity) && decide (0 < t.unitPrice)
    && beginsWith 'T' t.transactionID
    && beginsWith 'P' t.productID
    && beginsWith 'C' t.customerID

/-- The computed `_amount` helper field: `qty * price`. -/
def amountOf (t : ParsedRow) : ℚ := (t.quantity : ℚ) * t.unitPrice

/-- The main loop of `validate_and_filter`: accepted rows (paired with
their computed `_amount`) in input order, and the invalid-row count. -/
def validateLoop : List ParsedRow → List (ParsedRow × ℚ) × Nat
  | [] => ([], 0)
  | t :: ts =>
    let r := validateLoop ts
    if validRow t then ((t, amountOf t) :: r.1, r.2) else (r.1, r.2 + 1)

/-- The `filter_summary` dictionary returned by `validate_and_filter`. -/
structure FilterSummary where
  total_input : Nat
  invalid : Nat
  filtered_by_region : Nat
  filtered_by_amount : Nat
  final_count : Nat
deriving DecidableEq, Repr

/-- `file_handler.validate_and_filter`: validation followed by the optional
region filter and the optional amount filter, returning
`(valid_transactions, invalid_count, filter_summary)`. -/
def validate_and_filter (transactions : List ParsedRow) (region : Option String)
    (min_amount max_amount : Option ℚ) :
    List ParsedRow × Nat × FilterSummary :=
  let vr := validateLoop transactions
  let valid : List (ParsedRow × ℚ) := vr.1
  let invalid : Nat := vr.2
  let afterRegion :=
    match region with
    | none => (valid, 0)
    | some reg =>
      let kept := valid.filter (fun (v : ParsedRow × ℚ) => v.1.region == reg)
      (kept, valid.length - kept.length)
  let afterAmount :=
    if min_amount.isSome || max_amount.isSome then
      let ok := fun (v : ParsedRow × ℚ) =>
        (match min_amount with
         | some m => decide (m ≤ v.2)
         | none => true) &&
        (match max_amount with
         | some mx => decide (v.2 ≤ mx)
         | none => true)
      let kept := (afterRegion.1).filter ok
      (kept, afterRegion.1.length - kept.length)
    else (afterRegion.1, 0)
  let finalRows := afterAmount.1.map (fun (v : ParsedRow × ℚ) => v.1)
  (finalRows, invalid,
    { total_input := transactions.length
      invalid := invalid
      filtered_by_region := afterRegion.2
      filtered_by_amount := afterAmount.2
      final_count := finalRows.length })

/-! ## `data_processor` helpers

The `data_processor` functions take the dictionaries produced by
`parse_transactions`; on those, `_qty` (`int(str(tx["Quantity"]).replace(",", ""))`)
and `_price` are identities on the already-typed `Quantity`/`UnitPrice`
values, so they are modelled by the record fields directly.
`_amount = _qty * _price`, which is `amountOf`. -/

/-- `data_processor.daily_sales_trend` accumulators, per date `d`:
summed revenue of the transactions dated `d`. -/
def dailyRevenue (txs : List ParsedRow) (d : String) : ℚ :=
  ((txs.filter (fun t => t.date == d)).map amountOf).sum

/-- Number of transactions dated `d`. -/
def dailyCount (txs : List ParsedRow) (d : String) : Nat :=
  (txs.filter (fun t => t.date == d)).length

/-- Number of distinct customers among the transactions dated `d`
(`len(uniq[d])` where `uniq[d]` is a set). -/
def dailyUniqueCustomers (txs : List ParsedRow) (d : String) : Nat :=
  (dedupFirst ((txs.filter (fun t => t.date == d)).map (fun t => t.customerID))).length

/-- The keys of the `rev`/`cnt`/`uniq` defaultdicts, in insertion
(first-seen) order. -/
def datesFirstSeen (txs : List ParsedRow) : List String :=
  dedupFirst (txs.map (fun t => t.date))

/-- String `≤` as a boolean, code-point lexicographic (Python order). -/
def strLeB (a b : String) : Bool := lexLe a.data b.data

/-- `data_processor.daily_sales_trend`: an insertion-ordered dict built by
iterating `sorted(rev.keys())`, modelled as the association list
`(date, revenue, transaction_count, unique_customers)` with the dates in
sorted order. -/
def daily_sales_trend (txs : List ParsedRow) : List (String × ℚ × Nat × Nat) :=
  (insertionSortBy strLeB (datesFirstSeen txs)).map
    (fun d => (d, round2 (dailyRevenue txs d), dailyCount txs d, dailyUniqueCustomers txs d))

/-- Python `min()` over a non-empty collection `k :: ks` of strings: keeps
the current minimum unless a strictly smaller element appears (so the
first minimal element wins, as in Python). -/
def listMinStr (k : String) (ks : List String) : String :=
  ks.foldl (fun m x => if lexLe m.data x.data then m else x) k

/-- The scan of `find_peak_sales_day`: fold over the `(date, revenue)`
items, adopting an item when its revenue strictly exceeds the current
best (`stats["revenue"] > best_rev`). -/
def peakFold : List (String × ℚ) → String × ℚ → String × ℚ
  | [], acc => acc
  | (d, r) :: rest, acc => peakFold rest (if acc.2 < r then (d, r) else acc)

/-- Python dict lookup `daily[k]` on the association list (keys are unique;
the default is never reached for keys of the dict). -/
def lookupDay (daily : List (String × ℚ × Nat × Nat)) (k : String) : ℚ × Nat × Nat :=
  match daily.find? (fun e => e.1 == k) with
  | some e => e.2
  | none => (0, 0, 0)

/-- `data_processor.find_peak_sales_day`: `("", 0.0, 0)` on an empty trend;
otherwise start from `best_date = min(daily.keys())` with its revenue, scan
all items with a strict `>` update, and return the best date with its
revenue and transaction count looked up in `daily`. -/
def find_peak_sales_day (txs : List ParsedRow) : String × ℚ × Nat :=
  match daily_sales_trend txs with
  | [] => ("", 0, 0)
  | e :: rest =>
    let daily := e :: rest
    let bd0 := listMinStr e.1 (rest.map (fun x => x.1))
    let br0 := (lookupDay daily bd0).1
    let best := peakFold (daily.map (fun x => (x.1, x.2.1))) (bd0, br0)
    let stats := lookupDay daily best.1
    (best.1, stats.1, stats.2.1)

/-- The keys of `qty_by_product`/`rev_by_product`, in insertion
(first-seen) order of the product names. -/
def productsFirstSeen (txs : List ParsedRow) : List String :=
  dedupFirst (txs.map (fun t => t.productName))

/-- Total quantity accumulated for product name `p`. -/
def productQty (txs : List ParsedRow) (p : String) : Int :=
  ((txs.filter (fun t => t.productName == p)).map (fun t => t.quantity)).sum

/-- Total revenue accumulated for product name `p`. -/
def productRev (txs : List ParsedRow) (p : String) : ℚ :=
  ((txs.filter (fun t => t.productName == p)).map amountOf).sum

/-- `data_processor.top_selling_products`: build
`(p, qty_by_product[p], round(rev_by_product[p], 2))` rows in first-seen
order, stable-sort by total quantity descending (`rows.sort(key=x[1],
reverse=True)` is stable), and take the first `n`. -/
def top_selling_products (txs : List ParsedRow) (n : Nat) : List (String × Int × ℚ) :=
  ((insertionSortBy (fun (a b : String × Int × ℚ) => decide (b.2.1 ≤ a.2.1))
      ((productsFirstSeen txs).map
        (fun p => (p, productQty txs p, round2 (productRev txs p))))).take n)

/-! ## `analytics.compute_kpis` -/

/-- Modelled from the spec: `SalesRecord` (spec §3) is the durable record
class of the repository's `file_handler` module; its definition is absent
from the provided sources (`analytics.py` and `main.py` only import and
use it).  Fields follow §3; the derived attribute
`revenue = quantity × unit_price`. -/
structure SalesRecord where
  transaction_id : String
  date : String
  product_id : String
  product_name : String
  quantity : Int
  unit_price : ℚ
  customer_id : String
  region : String
deriving DecidableEq, Repr

/-- Derived attribute `revenue = quantity × unit_price` (spec §3). -/
def SalesRecord.revenue (r : SalesRecord) : ℚ := (r.quantity : ℚ) * r.unit_price

/-- Distinct values of `f` over `records`, in first-seen order: the key
order of the `defaultdict` accumulators in `compute_kpis`. -/
def keysFirstSeen (records : List SalesRecord) (f : SalesRecord → String) : List String :=
  dedupFirst (records.map f)

/-- Summed revenue of the records with `f r = k`. -/
def revenueBy (records : List SalesRecord) (f : SalesRecord → String) (k : String) : ℚ :=
  ((records.filter (fun r => f r == k)).map SalesRecord.revenue).sum

/-- Number of records with `customer_id = c`. -/
def ordersByCustomer (records : List SalesRecord) (c : String) : Nat :=
  (records.filter (fun r => r.customer_id == c)).length

/-- The fields of the KPI dictionary returned by `compute_kpis`. -/
structure KPIBundle where
  total_orders : Nat
  total_revenue : ℚ
  avg_order_value : ℚ
  revenue_by_region : List (String × ℚ)
  top_products_by_revenue : List (String × ℚ)
  top_customers_by_spend : List (String × ℚ)
  repeat_customers_count : Nat
  daily_revenue : List (String × ℚ)
deriving DecidableEq, Repr

/-- `analytics.compute_kpis`.  `avg_order_value` is
`total_revenue / total_orders if total_orders else 0.0` computed on the
raw (unrounded) total;  `revenue_by_region` and the two top-5 rankings are
stable-sorted descending by value;  `daily_revenue` is
`sorted(revenue_by_date.items())` — the keys are distinct, so sorting the
`(key, value)` pairs orders them by key. -/
def compute_kpis (records : List SalesRecord) : KPIBundle :=
  let total_orders := records.length
  let total_revenue := (records.map SalesRecord.revenue).sum
  let avg_raw : ℚ := if total_orders = 0 then 0 else total_revenue / (total_orders : ℚ)
  let regionPairs :=
    (keysFirstSeen records (fun r => r.region)).map
      (fun k => (k, revenueBy records (fun r => r.region) k))
  let productPairs :=
    (keysFirstSeen records (fun r => r.product_name)).map
      (fun k => (k, revenueBy records (fun r => r.product_name) k))
  let customerPairs :=
    (keysFirstSeen records (fun r => r.customer_id)).map
      (fun k => (k, revenueBy records (fun r => r.customer_id) k))
  let descByVal := fun (a b : String × ℚ) => decide (b.2 ≤ a.2)
  { total_orders := total_orders
    total_revenue := round2 total_revenue
    avg_order_value := round2 avg_raw
    revenue_by_region :=
      (insertionSortBy descByVal regionPairs).map (fun e => (e.1, round2 e.2))
    top_products_by_revenue :=
      ((insertionSortBy descByVal productPairs).take 5).map (fun e => (e.1, round2 e.2))
    top_customers_by_spend :=
      ((insertionSortBy descByVal customerPairs).take 5).map (fun e => (e.1, round2 e.2))
    repeat_customers_count :=
      ((keysFirstSeen records (fun r => r.customer_id)).filter
        (fun c => decide (1 < ordersByCustomer records c))).length
    daily_revenue :=
      (insertionSortBy strLeB (keysFirstSeen records (fun r => r.date))).map
        (fun k => (k, round2 (revenueBy records (fun r => r.date) k))) }

/-! ## `api_client.ProductAPIClient` -/

/-- `api_client.ProductAPIClient`.  Metadata objects are modelled as
`Option String` (`none` is the empty object `\x7b\x7d`); the cache dict is an
association list in most-recent-first order.  `base_url`, `timeout_sec`
and `backoff_sec` configure the transport and the sleeps, which are side
effects outside the returned values. -/
structure ProductAPIClient where
  base_url : String
  timeout_sec : Nat
  max_retries : Nat
  backoff_sec : ℚ
  cache : List (String × Option String)
deriving DecidableEq, Repr

/-- The default field values of the `ProductAPIClient` dataclass. -/
def ProductAPIClient.default : ProductAPIClient :=
  { base_url := "https://dummyjson.com/products"
    timeout_sec := 10
    max_retries := 2
    backoff_sec := 1 / 2
    cache := [] }

/-- Python dict membership/lookup `self.cache[product_id]`. -/
def cacheLookup (cache : List (String × Option String)) (k : String) :
    Option (Option String) :=
  (cache.find? (fun p => p.1 == k)).map (fun p => p.2)

/-- The digits of the product id, concatenated in order
(`"".join(ch for ch in product_id if ch.isdigit())`). -/
def extractDigits (pid : String) : List Char :=
  pid.data.filter Char.isDigit

/-- The retry loop `for attempt in range(max_retries + 1)`.  The network
(one `urlopen` + JSON decode per attempt, any `HTTPError`/`URLError`/
`TimeoutError`/`ValueError` caught as a failure) is abstracted as the
oracle `net : attempt index → Option payload`.  Returns the first
successful payload (if any) and the number of attempts issued. -/
def runAttempts (net : Nat → Option String) : Nat → Nat → Option String × Nat
  | _, 0 => (none, 0)
  | start, r + 1 =>
    match net start with
    | some d => (some d, 1)
    | none =>
      let rec' := runAttempts net (start + 1) r
      (rec'.1, rec'.2 + 1)

/-- `ProductAPIClient.get_product_info`: answer from the cache when
present; with no digits in the id, cache and return the empty object with
no network attempt; otherwise run the attempt loop, caching the payload on
success and the empty object after exhausting retries.  Returns the
metadata, the updated client, and the number of network attempts issued
(the function never raises: every transport failure is absorbed). -/
def get_product_info (c : ProductAPIClient) (pid : String)
    (net : Nat → Option String) : Option String × ProductAPIClient × Nat :=
  match cacheLookup c.cache pid with
  | some m => (m, c, 0)
  | none =>
    if (extractDigits pid).isEmpty then
      (none, { c with cache := (pid, none) :: c.cache }, 0)
    else
      match runAttempts net 0 (c.max_retries + 1) with
      | (some d, n) => (some d, { c with cache := (pid, some d) :: c.cache }, n)
      | (none, n) => (none, { c with cache := (pid, none) :: c.cache }, n)

/-! ## Generic lemmas about the list machinery -/

theorem lexLe_refl : ∀ a : List Char, lexLe a a = true := by
  intro a
  induction a with
  | nil => rfl
  | cons c cs ih => simp [lexLe, ih]

theorem lexLe_total : ∀ a b : List Char, lexLe a b = true ∨ lexLe b a = true := by
  intro a
  induction a with
  | nil => intro b; left; rfl
  | cons c cs ih =>
    intro b
    cases b with
    | nil => right; rfl
    | cons d ds =>
      simp only [lexLe]
      rcases Nat.lt_trichotomy c.toNat d.toNat with h | h | h
      · left; simp [h]
      · have h1 : ¬ c.toNat < d.toNat := by omega
        have h2 : ¬ d.toNat < c.toNat := by omega
        simpa [h1, h2] using ih ds
      · right; simp [h]

theorem lexLe_trans :
    ∀ a b c : List Char, lexLe a b = true → lexLe b c = true → lexLe a c = true := by
  intro a
  induction a with
  | nil => intro b c _ _; rfl
  | cons x xs ih =>
    intro b c hab hbc
    cases b with
    | nil => simp [lexLe] at hab
    | cons y ys =>
      cases c with
      | nil => simp [lexLe] at hbc
      | cons z zs =>
        simp only [lexLe] at hab hbc ⊢
        by_cases h1 : x.toNat < y.toNat
        · by_cases h2 : y.toNat < z.toNat
          · have h3 : x.toNat < z.toNat := by omega
            simp [h3]
          · by_cases h2' : z.toNat < y.toNat
            · simp [h2, h2'] at hbc
            · have h3 : x.toNat < z.toNat := by omega
              simp [h3]
        · by_cases h1' : y.toNat < x.toNat
          · simp [h1, h1'] at hab
          · by_cases h2 : y.toNat < z.toNat
            · have h3 : x.toNat < z.toNat := by omega
              simp [h3]
            · by_cases h2' : z.toNat < y.toNat
              · simp [h2, h2'] at hbc
              · have e1 : ¬ x.toNat < z.toNat := by omega
                have e2 : ¬ z.toNat < x.toNat := by omega
                simp only [h1, h1', if_false] at hab
                simp only [h2, h2', if_false] at hbc
                simp only [e1, e2, if_false]
                exact ih ys zs hab hbc

theorem mem_insertLe {α : Type} {le : α → α → Bool} {x a : α} :
    ∀ {l : List α}, a ∈ insertLe le x l ↔ a = x ∨ a ∈ l := by
  intro l
  induction l with
  | nil => simp [insertLe]
  | cons y ys ih =>
    simp only [insertLe]
    split
    · simp [List.mem_cons]
    · simp only [List.mem_cons, ih]
      tauto

theorem perm_insertLe {α : Type} (le : α → α → Bool) (x : α) :
    ∀ l : List α, (insertLe le x l).Perm (x :: l) := by
  intro l
  induction l with
  | nil => exact List.Perm.refl _
  | cons y ys ih =>
    simp only [insertLe]
    split
    · exact List.Perm.refl _
    · exact (ih.cons y).trans (List.Perm.swap x y ys)

theorem perm_insertionSortBy {α : Type} (le : α → α → Bool) :
    ∀ l : List α, (insertionSortBy le l).Perm l := by
  intro l
  induction l with
  | nil => exact List.Perm.refl _
  | cons x xs ih =>
    exact (perm_insertLe le x (insertionSortBy le xs)).trans (ih.cons x)

theorem mem_insertionSortBy {α : Type} {le : α → α → Bool} {a : α} {l : List α} :
    a ∈ insertionSortBy le l ↔ a ∈ l :=
  (perm_insertionSortBy le l).mem_iff

theorem sorted_insertLe {α : Type} {le : α → α → Bool}
    (htrans : ∀ a b c, le a b = true → le b c = true → le a c = true)
    (htot : ∀ a b, le a b = true ∨ le b a = true) (x : α) :
    ∀ {l : List α}, l.Pairwise (fun a b => le a b = true) →
      (insertLe le x l).Pairwise (fun a b => le a b = true) := by
  intro l
  induction l with
  | nil => simp [insertLe]
  | cons y ys ih =>
    intro hl
    rcases List.pairwise_cons.mp hl with ⟨hy, hys⟩
    simp only [insertLe]
    split
    · rename_i hxy
      refine List.pairwise_cons.mpr ⟨?_, hl⟩
      intro z hz
      rcases List.mem_cons.mp hz with rfl | hz'
      · exact hxy
      · exact htrans x y z hxy (hy z hz')
    · rename_i hxy
      refine List.pairwise_cons.mpr ⟨?_, ih hys⟩
      intro z hz
      rcases mem_insertLe.mp hz with rfl | hz'
      · rcases htot z y with h | h
        · exact absurd h hxy
        · exact h
      · exact hy z hz'

theorem sorted_insertionSortBy {α : Type} {le : α → α → Bool}
    (htrans : ∀ a b c, le a b = true → le b c = true → le a c = true)
    (htot : ∀ a b, le a b = true ∨ le b a = true) :
    ∀ l : List α, (insertionSortBy le l).Pairwise (fun a b => le a b = true) := by
  intro l
  induction l with
  | nil => simp [insertionSortBy]
  | cons x xs ih => exact sorted_insertLe htrans htot x ih

theorem stable_insertLe {α : Type} {le : α → α → Bool} {aux : α → Nat} {x : α} :
    ∀ {l : List α}, l.Pairwise (fun a b => le b a = true → aux a < aux b) →
      (∀ y ∈ l, aux x < aux y) →
      (insertLe le x l).Pairwise (fun a b => le b a = true → aux a < aux b) := by
  intro l
  induction l with
  | nil => simp [insertLe]
  | cons y ys ih =>
    intro hl hall
    rcases List.pairwise_cons.mp hl with ⟨hy, hys⟩
    simp only [insertLe]
    split
    · refine List.pairwise_cons.mpr ⟨?_, hl⟩
      intro z hz _
      exact hall z hz
    · rename_i hxy
      refine List.pairwise_cons.mpr ⟨?_, ?_⟩
      · intro z hz
        rcases mem_insertLe.mp hz with rfl | hz'
        · intro hzy
          exact absurd hzy hxy
        · exact hy z hz'
      · exact ih hys (fun z hz => hall z (List.mem_cons_of_mem y hz))

theorem stable_insertionSortBy {α : Type} {le : α → α → Bool} {aux : α → Nat} :
    ∀ {l : List α}, l.Pairwise (fun a b => aux a < aux b) →
      (insertionSortBy le l).Pairwise (fun a b => le b a = true → aux a < aux b) := by
  intro l
  induction l with
  | nil => simp [insertionSortBy]
  | cons x xs ih =>
    intro hl
    rcases List.pairwise_cons.mp hl with ⟨hx, hxs⟩
    exact stable_insertLe (ih hxs)
      (fun y hy => hx y (mem_insertionSortBy.mp hy))

theorem mem_dedupFirst {α : Type} [DecidableEq α] {a : α} :
    ∀ {l : List α}, a ∈ dedupFirst l ↔ a ∈ l := by
  intro l
  induction l with
  | nil => simp [dedupFirst]
  | cons x xs ih =>
    simp only [dedupFirst, List.mem_cons, List.mem_filter, ih, decide_eq_true_eq]
    by_cases hax : a = x
    · simp [hax]
    · simp [hax]

theorem nodup_dedupFirst {α : Type} [DecidableEq α] :
    ∀ l : List α, (dedupFirst l).Nodup := by
  intro l
  induction l with
  | nil => simp [dedupFirst]
  | cons x xs ih =>
    refine List.nodup_cons.mpr ⟨?_, ih.filter _⟩
    intro hx
    rcases List.mem_filter.mp hx with ⟨_, hne⟩
    exact (decide_eq_true_eq.mp hne) rfl

theorem pairwise_rankIn {α : Type} [DecidableEq α] :
    ∀ {l : List α}, l.Nodup → l.Pairwise (fun a b => rankIn l a < rankIn l b) := by
  intro l
  induction l with
  | nil => simp
  | cons x xs ih =>
    intro hnd
    rcases List.nodup_cons.mp hnd with ⟨hx, hxs⟩
    refine List.pairwise_cons.mpr ⟨?_, ?_⟩
    · intro b hb
      have hbx : x ≠ b := fun h => hx (h ▸ hb)
      simp [rankIn, hbx]
    · refine (ih hxs).imp_of_mem ?_
      intro a b ha hb hab
      have hxa : x ≠ a := fun h => hx (h ▸ ha)
      have hxb : x ≠ b := fun h => hx (h ▸ hb)
      simpa [rankIn, hxa, hxb] using hab

/-! ## Lemmas about the parser and validator -/

theorem parseLine_eq_none_of_length_ne {line : String}
    (h : (splitChar '|' line.data).length ≠ 8) : parseLine line = none := by
  unfold parseLine
  rw [dif_neg]
  simpa using h

theorem validateLoop_length :
    ∀ ts : List ParsedRow, (validateLoop ts).1.length + (validateLoop ts).2 = ts.length := by
  intro ts
  induction ts with
  | nil => rfl
  | cons t ts ih =>
    simp only [validateLoop]
    split
    · simpa using by omega
    · simpa using by omega

theorem validate_and_filter_no_filters (ts : List ParsedRow) :
    validate_and_filter ts none none none =
      ((validateLoop ts).1.map (fun v => v.1), (validateLoop ts).2,
        { total_input := ts.length
          invalid := (validateLoop ts).2
          filtered_by_region := 0
          filtered_by_amount := 0
          final_count := (validateLoop ts).1.length }) := by
  simp [validate_and_filter]

/-- C1 (counterexample): on the spec's own example line, which splits on
the delimiter into 9 fields, `parse_transactions` produces no row at all —
the line is skipped, not reassembled. -/
theorem parse_example_line_skipped :
    parse_transactions ["T003|2024-01-02|P12|Desk | Chair Set|2|50.00|C003|East"] = [] := by
  decide

/-- C1 (amended): every input line that splits on the delimiter into more
than 8 fields is skipped by `parse_transactions` (no `ParsedRow` is
produced), per the `if len(parts) != 8: continue` guard. -/
theorem parse_skips_lines_with_extra_fields (line : String)
    (h : 8 < (splitChar '|' line.data).length) : parseLine line = none :=
  parseLine_eq_none_of_length_ne (by omega)

theorem parse_skips_lines_with_extra_fields_witness :
    8 < (splitChar '|' "T003|2024-01-02|P12|Desk | Chair Set|2|50.00|C003|East".data).length ∧
    parseLine "T003|2024-01-02|P12|Desk | Chair Set|2|50.00|C003|East" = none :=
  ⟨by decide,
   parse_skips_lines_with_extra_fields
     "T003|2024-01-02|P12|Desk | Chair Set|2|50.00|C003|East" (by decide)⟩

/-- C3 (counterexample): a line splitting into fewer than 8 fields is not
padded into a `ParsedRow`; `parse_transactions` drops it at the parsing
stage. -/
theorem parse_short_line_not_padded :
    parse_transactions ["T001|2024-01-01|P10"] = [] := by
  decide

/-- C3 (amended): every input line that splits on the delimiter into fewer
than 8 fields is skipped by `parse_transactions` (no `ParsedRow` is
produced and nothing reaches validation), per the
`if len(parts) != 8: continue` guard. -/
theorem parse_skips_lines_with_missing_fields (line : String)
    (h : (splitChar '|' line.data).length < 8) : parseLine line = none :=
  parseLine_eq_none_of_length_ne (by omega)

theorem parse_skips_lines_with_missing_fields_witness :
    (splitChar '|' "T001|2024-01-01|P10".data).length < 8 ∧
    parseLine "T001|2024-01-01|P10" = none :=
  ⟨by decide, parse_skips_lines_with_missing_fields "T001|2024-01-01|P10" (by decide)⟩

/-- C2: with no optional region/amount filters, the counters of
`validate_and_filter` satisfy `valid_after_cleaning ≤ total_parsed` (here
`final_count ≤ total_input`) and
`invalid_removed = total_parsed - valid_after_cleaning` (here
`invalid = total_input - final_count`), and along the pipeline the count
of accepted records is at most the count of parsed rows, which is at most
the count of raw lines. -/
theorem validation_counter_invariants (raw_lines : List String) :
    ((validate_and_filter (parse_transactions raw_lines) none none none).2.2.final_count ≤
      (validate_and_filter (parse_transactions raw_lines) none none none).2.2.total_input) ∧
    ((validate_and_filter (parse_transactions raw_lines) none none none).2.2.invalid =
      (validate_and_filter (parse_transactions raw_lines) none none none).2.2.total_input -
        (validate_and_filter (parse_transactions raw_lines) none none none).2.2.final_count) ∧
    ((validate_and_filter (parse_transactions raw_lines) none none none).1.length ≤
      (parse_transactions raw_lines).length) ∧
    (parse_transactions raw_lines).length ≤ raw_lines.length := by
  have hlen := validateLoop_length (parse_transactions raw_lines)
  rw [validate_and_filter_no_filters]
  refine ⟨by simpa using by omega, by simpa using by omega, ?_, ?_⟩
  · simpa using by omega
  · exact List.length_filterMap_le _ _

/-! ## Validator rejection rules (C9, C10) -/

theorem dropWhile_append_singleton {α : Type} {p : α → Bool} {a : α} (h : p a = false) :
    ∀ l : List α, (l ++ [a]).dropWhile p = l.dropWhile p ++ [a] := by
  intro l
  induction l with
  | nil => simp [List.dropWhile, h]
  | cons x xs ih =>
    by_cases hx : p x
    · simpa [List.dropWhile, hx] using ih
    · simp [List.dropWhile, hx]

theorem beginsWith_pyStrip {c : Char} (hc : c.isWhitespace = false) {s : String}
    (h : beginsWith c s = true) :
    beginsWith c (pyStrip s) = true ∧ pyStrip s ≠ "" := by
  unfold beginsWith at h
  rcases hd : s.data with _ | ⟨d, rest⟩
  · rw [hd] at h; exact absurd h (by simp)
  · rw [hd] at h
    have hdc : d = c := by simpa using h
    subst hdc
    have hstrip : stripChars s.data = d :: ((rest.reverse.dropWhile Char.isWhitespace).reverse) := by
      rw [hd]
      unfold stripChars
      rw [List.dropWhile_cons_of_neg (by simp [hc])]
      rw [List.reverse_cons, dropWhile_append_singleton hc, List.reverse_append]
      simp
    constructor
    · simp only [pyStrip, beginsWith, hstrip]
      simp
    · intro hempty
      have : (pyStrip s).data = [] := by rw [hempty]
      rw [pyStrip] at this
      simp only [hstrip] at this
      exact List.noConfusion this

theorem validRow_false_of_txid {t : ParsedRow}
    (h : pyStrip t.transactionID = "" ∨ beginsWith 'T' (pyStrip t.transactionID) = false) :
    validRow t = false := by
  have hb : beginsWith 'T' t.transactionID = false := by
    cases hb : beginsWith 'T' t.transactionID
    · rfl
    · rcases beginsWith_pyStrip (by decide) hb with ⟨h1, h2⟩
      rcases h with h | h
      · exact absurd h h2
      · rw [h1] at h; exact absurd h (by simp)
  simp [validRow, hb]

/-- C9: a `ParsedRow` whose trimmed `TransactionID` is empty or does not
begin with `'T'` is always rejected by the validator: it contributes to
the invalid count and never to the accepted list, whatever its other
fields. -/
theorem txid_rule_rejects (t : ParsedRow) (ts : List ParsedRow)
    (h : pyStrip t.transactionID = "" ∨ beginsWith 'T' (pyStrip t.transactionID) = false) :
    validRow t = false ∧
    (validateLoop (t :: ts)).1 = (validateLoop ts).1 ∧
    (validateLoop (t :: ts)).2 = (validateLoop ts).2 + 1 := by
  have hv := validRow_false_of_txid h
  exact ⟨hv, by simp [validateLoop, hv], by simp [validateLoop, hv]⟩

theorem txid_rule_rejects_witness :
    (pyStrip "X001" = "" ∨ beginsWith 'T' (pyStrip "X001") = false) ∧
    (validRow ⟨"X001", "2024-01-01", "P10", "Widget", 5, 10, "C001", "North"⟩ = false ∧
     (validateLoop [⟨"X001", "2024-01-01", "P10", "Widget", 5, 10, "C001", "North"⟩]).1 =
       (validateLoop []).1 ∧
     (validateLoop [⟨"X001", "2024-01-01", "P10", "Widget", 5, 10, "C001", "North"⟩]).2 =
       (validateLoop []).2 + 1) :=
  ⟨Or.inr (by decide),
   txid_rule_rejects ⟨"X001", "2024-01-01", "P10", "Widget", 5, 10, "C001", "North"⟩ []
     (Or.inr (by decide))⟩

/-- C10: the validator enforces the two prefix rules the spec leaves
implicit — a `ParsedRow` whose `ProductID` does not start with `'P'` or
whose `CustomerID` does not start with `'C'` is rejected and counted as
invalid, whatever its other fields. -/
theorem product_customer_checks_reject (t : ParsedRow) (ts : List ParsedRow)
    (h : beginsWith 'P' t.productID = false ∨ beginsWith 'C' t.customerID = false) :
    validRow t = false ∧
    (validateLoop (t :: ts)).1 = (validateLoop ts).1 ∧
    (validateLoop (t :: ts)).2 = (validateLoop ts).2 + 1 := by
  have hv : validRow t = false := by
    rcases h with h | h <;> simp [validRow, h]
  exact ⟨hv, by simp [validateLoop, hv], by simp [validateLoop, hv]⟩

theorem product_customer_checks_reject_witness :
    (beginsWith 'P' "X10" = false ∨ beginsWith 'C' "C001" = false) ∧
    (validRow ⟨"T001", "2024-01-01", "X10", "Widget", 5, 10, "C001", "North"⟩ = false ∧
     (validateLoop [⟨"T001", "2024-01-01", "X10", "Widget", 5, 10, "C001", "North"⟩]).1 =
       (validateLoop []).1 ∧
     (validateLoop [⟨"T001", "2024-01-01", "X10", "Widget", 5, 10, "C001", "North"⟩]).2 =
       (validateLoop []).2 + 1) :=
  ⟨Or.inl (by decide),
   product_customer_checks_reject
     ⟨"T001", "2024-01-01", "X10", "Widget", 5, 10, "C001", "North"⟩ []
     (Or.inl (by decide))⟩

/-! ## Enrichment client (C4) -/

theorem runAttempts_bound (net : Nat → Option String) :
    ∀ (r start : Nat), (runAttempts net start r).2 ≤ r := by
  intro r
  induction r with
  | zero => intro start; simp [runAttempts]
  | succ n ih =>
    intro start
    simp only [runAttempts]
    cases net start
    · simpa using ih (start + 1)
    · simp

theorem runAttempts_all_fail {net : Nat → Option String} (h : ∀ k, net k = none) :
    ∀ (r start : Nat), runAttempts net start r = (none, r) := by
  intro r
  induction r with
  | zero => intro start; rfl
  | succ n ih =>
    intro start
    simp only [runAttempts, h start, ih (start + 1)]

theorem cacheLookup_head (cache : List (String × Option String)) (pid : String)
    (m : Option String) : cacheLookup ((pid, m) :: cache) pid = some m := by
  simp [cacheLookup, List.find?]

theorem get_product_info_hit {c : ProductAPIClient} {pid : String} {m : Option String}
    (h : cacheLookup c.cache pid = some m) (net : Nat → Option String) :
    get_product_info c pid net = (m, c, 0) := by
  unfold get_product_info
  rw [h]

theorem get_product_info_caches (c : ProductAPIClient) (pid : String)
    (net : Nat → Option String) :
    cacheLookup (get_product_info c pid net).2.1.cache pid =
      some (get_product_info c pid net).1 := by
  unfold get_product_info
  cases h : cacheLookup c.cache pid with
  | some m => simpa using h
  | none =>
    by_cases hd : (extractDigits pid).isEmpty
    · simp [hd, cacheLookup_head]
    · simp only [hd]
      cases hr : runAttempts net 0 (c.max_retries + 1) with
      | mk res n =>
        cases res <;> simp [cacheLookup_head]

/-- C4: for any client state and any product id, a second
`get_product_info` call with the same id issues no further network
attempt and returns the first call's result (the first call issues at
most one bounded attempt sequence); and if the id was uncached and every
attempt of the first call fails, both calls return the empty metadata
object — the function is total, so no exception reaches the caller. -/
theorem get_product_info_spec (c : ProductAPIClient) (pid : String)
    (net net2 : Nat → Option String) :
    (get_product_info (get_product_info c pid net).2.1 pid net2).2.2 = 0 ∧
    (get_product_info (get_product_info c pid net).2.1 pid net2).1 =
      (get_product_info c pid net).1 ∧
    (get_product_info c pid net).2.2 ≤ c.max_retries + 1 ∧
    (cacheLookup c.cache pid = none → (∀ k, net k = none) →
      (get_product_info c pid net).1 = none ∧
      (get_product_info (get_product_info c pid net).2.1 pid net2).1 = none) := by
  have hsecond :=
    get_product_info_hit (get_product_info_caches c pid net) net2
  refine ⟨by rw [hsecond], by rw [hsecond], ?_, ?_⟩
  · unfold get_product_info
    cases h : cacheLookup c.cache pid with
    | some m => simp
    | none =>
      by_cases hd : (extractDigits pid).isEmpty
      · simp [hd]
      · simp only [hd]
        cases hr : runAttempts net 0 (c.max_retries + 1) with
        | mk res n =>
          have hb := runAttempts_bound net (c.max_retries + 1) 0
          rw [hr] at hb
          cases res <;> simpa using hb
  · intro hmiss hfail
    have hfirst : (get_product_info c pid net).1 = none := by
      unfold get_product_info
      rw [hmiss]
      by_cases hd : (extractDigits pid).isEmpty
      · simp [hd]
      · simp only [hd]
        rw [runAttempts_all_fail hfail]
        simp
    exact ⟨hfirst, by rw [hsecond, hfirst]⟩

theorem get_product_info_spec_witness :
    cacheLookup ProductAPIClient.default.cache "P7" = none ∧
    ((get_product_info ProductAPIClient.default "P7" (fun _ => none)).1 = none ∧
     (get_product_info
        (get_product_info ProductAPIClient.default "P7" (fun _ => none)).2.1
        "P7" (fun _ => none)).1 = none) ∧
    (get_product_info
        (get_product_info ProductAPIClient.default "P7" (fun _ => none)).2.1
        "P7" (fun _ => none)).2.2 = 0 :=
  ⟨rfl,
   (get_product_info_spec ProductAPIClient.default "P7" (fun _ => none) (fun _ => none)).2.2.2
     rfl (fun _ => rfl),
   (get_product_info_spec ProductAPIClient.default "P7" (fun _ => none) (fun _ => none)).1⟩

/-! ## Average order value (C7) -/

/-- C7: `compute_kpis` computes the average order value as total revenue
divided by the number of records, guarded so that an empty collection
yields `0.0` instead of a division by zero.  (The reported figure is the
2-decimal rounding of that quotient, exactly as the reported total revenue
is the rounding of the raw sum.) -/
theorem avg_order_value_spec (records : List SalesRecord) :
    (records.length = 0 → (compute_kpis records).avg_order_value = 0) ∧
    (records.length ≠ 0 →
      (compute_kpis records).avg_order_value =
        round2 ((records.map SalesRecord.revenue).sum / (records.length : ℚ))) := by
  constructor
  · intro h
    simp [compute_kpis, h, round2]
  · intro h
    simp [compute_kpis, h]

theorem avg_order_value_spec_witness :
    (([⟨"T001", "2024-01-01", "P10", "Widget", 2, 5, "C001", "North"⟩] :
        List SalesRecord).length ≠ 0) ∧
    (compute_kpis [⟨"T001", "2024-01-01", "P10", "Widget", 2, 5, "C001", "North"⟩]).avg_order_value =
      round2 ((([⟨"T001", "2024-01-01", "P10", "Widget", 2, 5, "C001", "North"⟩] :
        List SalesRecord).map SalesRecord.revenue).sum /
        ((([⟨"T001", "2024-01-01", "P10", "Widget", 2, 5, "C001", "North"⟩] :
          List SalesRecord).length : ℚ))) :=
  ⟨by decide,
   (avg_order_value_spec [⟨"T001", "2024-01-01", "P10", "Widget", 2, 5, "C001", "North"⟩]).2
     (by decide)⟩

/-! ## Sorted daily keys (C8) -/

theorem strLeB_trans : ∀ a b c : String, strLeB a b = true → strLeB b c = true →
    strLeB a c = true :=
  fun a b c => lexLe_trans a.data b.data c.data

theorem strLeB_total : ∀ a b : String, strLeB a b = true ∨ strLeB b a = true :=
  fun a b => lexLe_total a.data b.data

theorem map_fst_pair {α β : Type} (g : α → β) (l : List α) :
    (l.map (fun d => (d, g d))).map (fun e => e.1) = l := by
  induction l with
  | nil => rfl
  | cons x xs ih => simp only [List.map_cons, ih]

theorem trend_keys (txs : List ParsedRow) :
    (daily_sales_trend txs).map (fun e => e.1) =
      insertionSortBy strLeB (datesFirstSeen txs) :=
  map_fst_pair
    (fun d => (round2 (dailyRevenue txs d), dailyCount txs d, dailyUniqueCustomers txs d))
    (insertionSortBy strLeB (datesFirstSeen txs))

theorem kpi_daily_keys (records : List SalesRecord) :
    (compute_kpis records).daily_revenue.map (fun e => e.1) =
      insertionSortBy strLeB (keysFirstSeen records (fun r => r.date)) :=
  map_fst_pair
    (fun k => round2 (revenueBy records (fun r => r.date) k))
    (insertionSortBy strLeB (keysFirstSeen records (fun r => r.date)))

/-- C8: for every transaction list — hence for every reordering of one —
the date keys of `daily_sales_trend` are in non-decreasing lexicographic
order, and so are the keys of the `daily_revenue` section of the KPI
bundle. -/
theorem daily_keys_sorted (txs txs' : List ParsedRow) (recs recs' : List SalesRecord)
    (h1 : txs.Perm txs') (h2 : recs.Perm recs') :
    ((daily_sales_trend txs').map (fun e => e.1)).Pairwise (fun a b => strLeB a b = true) ∧
    ((compute_kpis recs').daily_revenue.map (fun e => e.1)).Pairwise
      (fun a b => strLeB a b = true) := by
  constructor
  · rw [trend_keys]
    exact sorted_insertionSortBy strLeB_trans strLeB_total _
  · rw [kpi_daily_keys]
    exact sorted_insertionSortBy strLeB_trans strLeB_total _

theorem daily_keys_sorted_witness :
    ([(⟨"T1", "2024-01-02", "P1", "A", 2, 50, "C1", "East"⟩ : ParsedRow),
      ⟨"T2", "2024-01-01", "P2", "B", 1, 100, "C2", "West"⟩].Perm
      [⟨"T2", "2024-01-01", "P2", "B", 1, 100, "C2", "West"⟩,
       ⟨"T1", "2024-01-02", "P1", "A", 2, 50, "C1", "East"⟩]) ∧
    (((daily_sales_trend
        [⟨"T2", "2024-01-01", "P2", "B", 1, 100, "C2", "West"⟩,
         ⟨"T1", "2024-01-02", "P1", "A", 2, 50, "C1", "East"⟩]).map
          (fun e => e.1)).Pairwise (fun a b => strLeB a b = true) ∧
     ((compute_kpis ([] : List SalesRecord)).daily_revenue.map
        (fun e => e.1)).Pairwise (fun a b => strLeB a b = true)) :=
  ⟨List.Perm.swap _ _ _,
   daily_keys_sorted
     [⟨"T1", "2024-01-02", "P1", "A", 2, 50, "C1", "East"⟩,
      ⟨"T2", "2024-01-01", "P2", "B", 1, 100, "C2", "West"⟩]
     [⟨"T2", "2024-01-01", "P2", "B", 1, 100, "C2", "West"⟩,
      ⟨"T1", "2024-01-02", "P1", "A", 2, 50, "C1", "East"⟩]
     [] [] (List.Perm.swap _ _ _) (List.Perm.refl _)⟩

/-! ## Top-selling products (C6) -/

/-- C6: `top_selling_products` with `n = 5` returns at most 5 entries,
their total quantities are non-increasing, and two entries with equal
total quantity appear in the order their product names first occur in the
input (`rankIn (productsFirstSeen txs)` is the first-occurrence rank). -/
theorem top_selling_products_spec (txs : List ParsedRow) :
    (top_selling_products txs 5).length ≤ 5 ∧
    (top_selling_products txs 5).Pairwise (fun a b => b.2.1 ≤ a.2.1) ∧
    (top_selling_products txs 5).Pairwise (fun a b => a.2.1 = b.2.1 →
      rankIn (productsFirstSeen txs) a.1 < rankIn (productsFirstSeen txs) b.1) := by
  have hsub := List.take_sublist 5
    (insertionSortBy (fun (a b : String × Int × ℚ) => decide (b.2.1 ≤ a.2.1))
      ((productsFirstSeen txs).map
        (fun p => (p, productQty txs p, round2 (productRev txs p)))))
  refine ⟨?_, ?_, ?_⟩
  · simp [top_selling_products]
  · have hs := @sorted_insertionSortBy (String × Int × ℚ)
      (fun a b => decide (b.2.1 ≤ a.2.1))
      (fun a b c hab hbc => by
        simp only [decide_eq_true_eq] at hab hbc ⊢
        exact le_trans hbc hab)
      (fun a b => by
        simp only [decide_eq_true_eq]
        exact le_total b.2.1 a.2.1)
      ((productsFirstSeen txs).map
        (fun p => (p, productQty txs p, round2 (productRev txs p))))
    exact (hs.imp (fun h => decide_eq_true_eq.mp h)).sublist hsub
  · have hrank : ((productsFirstSeen txs).map
        (fun p => (p, productQty txs p, round2 (productRev txs p)))).Pairwise
        (fun a b => rankIn (productsFirstSeen txs) a.1 <
          rankIn (productsFirstSeen txs) b.1) := by
      rw [List.pairwise_map]
      exact pairwise_rankIn (nodup_dedupFirst _)
    have hst := @stable_insertionSortBy (String × Int × ℚ)
      (fun a b => decide (b.2.1 ≤ a.2.1))
      (fun row => rankIn (productsFirstSeen txs) row.1)
      ((productsFirstSeen txs).map
        (fun p => (p, productQty txs p, round2 (productRev txs p))))
      hrank
    refine List.Pairwise.sublist hsub (hst.imp ?_)
    intro a b hab he
    exact hab (decide_eq_true_eq.mpr (le_of_eq he))

/-! ## Peak sales day (C5) -/

theorem listMinStr_mem : ∀ (ks : List String) (k : String), listMinStr k ks ∈ k :: ks := by
  intro ks
  induction ks with
  | nil => intro k; simp [listMinStr]
  | cons x xs ih =>
    intro k
    simp only [listMinStr, List.foldl_cons]
    by_cases hkx : lexLe k.data x.data = true
    · simp only [hkx, if_true]
      have hmem := ih k
      simp only [listMinStr] at hmem
      rcases List.mem_cons.mp hmem with h | h
      · exact List.mem_cons.mpr (Or.inl h)
      · exact List.mem_cons.mpr (Or.inr (List.mem_cons.mpr (Or.inr h)))
    · simp only [hkx, if_false]
      have hmem := ih x
      simp only [listMinStr] at hmem
      rcases List.mem_cons.mp hmem with h | h
      · exact List.mem_cons.mpr (Or.inr (List.mem_cons.mpr (Or.inl h)))
      · exact List.mem_cons.mpr (Or.inr (List.mem_cons.mpr (Or.inr h)))

theorem listMinStr_le : ∀ (ks : List String) (k : String),
    ∀ y ∈ k :: ks, lexLe (listMinStr k ks).data y.data = true := by
  intro ks
  induction ks with
  | nil =>
    intro k y hy
    rcases List.mem_cons.mp hy with rfl | h
    · exact lexLe_refl _
    · cases h
  | cons x xs ih =>
    intro k y hy
    simp only [listMinStr, List.foldl_cons]
    by_cases hkx : lexLe k.data x.data = true
    · simp only [hkx, if_true]
      have hk : lexLe (listMinStr k xs).data k.data = true :=
        ih k k (List.mem_cons_self k xs)
      simp only [listMinStr] at hk
      rcases List.mem_cons.mp hy with rfl | hy'
      · exact hk
      · rcases List.mem_cons.mp hy' with rfl | hy''
        · exact lexLe_trans _ _ _ hk hkx
        · have := ih k y (List.mem_cons_of_mem k hy'')
          simpa only [listMinStr] using this
    · simp only [hkx, if_false]
      have hxk : lexLe x.data k.data = true := (lexLe_total _ _).resolve_left hkx
      have hx : lexLe (listMinStr x xs).data x.data = true :=
        ih x x (List.mem_cons_self x xs)
      simp only [listMinStr] at hx
      rcases List.mem_cons.mp hy with rfl | hy'
      · exact lexLe_trans _ _ _ hx hxk
      · rcases List.mem_cons.mp hy' with rfl | hy''
        · exact hx
        · have := ih x y (List.mem_cons_of_mem x hy'')
          simpa only [listMinStr] using this

theorem peakFold_ge_acc : ∀ (l : List (String × ℚ)) (acc : String × ℚ),
    acc.2 ≤ (peakFold l acc).2 := by
  intro l
  induction l with
  | nil => intro acc; exact le_refl _
  | cons p ps ih =>
    intro acc
    obtain ⟨d, r⟩ := p
    simp only [peakFold]
    by_cases hlt : acc.2 < r
    · simp only [hlt, if_true]
      exact le_trans (le_of_lt hlt) (ih (d, r))
    · simp only [hlt, if_false]
      exact ih acc

theorem peakFold_ge_mem : ∀ (l : List (String × ℚ)) (acc : String × ℚ),
    ∀ e ∈ l, e.2 ≤ (peakFold l acc).2 := by
  intro l
  induction l with
  | nil => intro acc e he; cases he
  | cons p ps ih =>
    intro acc e he
    obtain ⟨d, r⟩ := p
    simp only [peakFold]
    rcases List.mem_cons.mp he with rfl | he'
    · by_cases hlt : acc.2 < r
      · simp only [hlt, if_true]
        exact peakFold_ge_acc ps (d, r)
      · simp only [hlt, if_false]
        exact le_trans (le_of_not_lt hlt) (peakFold_ge_acc ps acc)
    · by_cases hlt : acc.2 < r
      · simp only [hlt, if_true]
        exact ih (d, r) e he'
      · simp only [hlt, if_false]
        exact ih acc e he'

theorem peakFold_eq_acc_or : ∀ (l : List (String × ℚ)) (acc : String × ℚ),
    peakFold l acc = acc ∨
      (peakFold l acc ∈ l ∧ acc.2 < (peakFold l acc).2) := by
  intro l
  induction l with
  | nil => intro acc; exact Or.inl rfl
  | cons p ps ih =>
    intro acc
    obtain ⟨d, r⟩ := p
    simp only [peakFold]
    by_cases hlt : acc.2 < r
    · simp only [hlt, if_true]
      rcases ih (d, r) with heq | ⟨hmem, hgt⟩
      · refine Or.inr ⟨?_, ?_⟩
        · rw [heq]; exact List.mem_cons_self _ _
        · rw [heq]; exact hlt
      · exact Or.inr ⟨List.mem_cons_of_mem _ hmem, lt_trans hlt hgt⟩
    · simp only [hlt, if_false]
      rcases ih acc with heq | ⟨hmem, hgt⟩
      · exact Or.inl heq
      · exact Or.inr ⟨List.mem_cons_of_mem _ hmem, hgt⟩

theorem peakFold_tiebreak : ∀ (l : List (String × ℚ)) (acc : String × ℚ),
    l.Pairwise (fun a b => lexLe a.1.data b.1.data = true) →
    (∀ e ∈ l, lexLe acc.1.data e.1.data = true) →
    ∀ e ∈ l, e.2 = (peakFold l acc).2 →
      lexLe (peakFold l acc).1.data e.1.data = true := by
  intro l
  induction l with
  | nil => intro acc _ _ e he; cases he
  | cons p ps ih =>
    intro acc hpw hacc e he heq
    obtain ⟨d, r⟩ := p
    rcases List.pairwise_cons.mp hpw with ⟨hd, hps⟩
    simp only [peakFold] at heq ⊢
    by_cases hlt : acc.2 < r
    · simp only [hlt, if_true] at heq ⊢
      rcases List.mem_cons.mp he with rfl | he'
      · rcases peakFold_eq_acc_or ps (d, r) with hfix | ⟨_, hgt⟩
        · rw [hfix]
          exact lexLe_refl _
        · rw [← heq] at hgt
          exact absurd hgt (lt_irrefl _)
      · exact ih (d, r) hps (fun z hz => hd z hz) e he' heq
    · simp only [hlt, if_false] at heq ⊢
      rcases List.mem_cons.mp he with rfl | he'
      · rcases peakFold_eq_acc_or ps acc with hfix | ⟨_, hgt⟩
        · rw [hfix]
          rw [hfix] at heq
          exact hacc (d, r) (List.mem_cons_self _ _)
        · rw [← heq] at hgt
          exact absurd (lt_of_le_of_lt (le_of_not_lt hlt) hgt) (lt_irrefl _)
      · exact ih acc hps (fun z hz => hacc z (List.mem_cons_of_mem _ hz)) e he' heq

theorem map_key_val_pair {α β γ : Type} (g : α → β × γ) (l : List α) :
    ((l.map (fun d => (d, g d))).map (fun e => (e.1, e.2.1))) =
      l.map (fun d => (d, (g d).1)) := by
  induction l with
  | nil => rfl
  | cons x xs ih => simp only [List.map_cons, ih]

theorem find?_key_map {γ : Type} (g : String → γ) :
    ∀ (l : List String) (d : String), d ∈ l →
      (l.map (fun x => (x, g x))).find? (fun e => e.1 == d) = some (d, g d) := by
  intro l
  induction l with
  | nil => intro d hd; cases hd
  | cons x xs ih =>
    intro d hd
    by_cases hx : x = d
    · subst hx
      simp only [List.map_cons]
      rw [List.find?_cons_of_pos _ (by simp)]
    · simp only [List.map_cons]
      rw [List.find?_cons_of_neg _ (by simp [hx])]
      exact ih d (List.mem_of_ne_of_mem (fun h => hx h.symm) hd)

theorem lookupDay_trend {txs : List ParsedRow} {d : String}
    (hd : d ∈ insertionSortBy strLeB (datesFirstSeen txs)) :
    lookupDay (daily_sales_trend txs) d =
      (round2 (dailyRevenue txs d), dailyCount txs d, dailyUniqueCustomers txs d) := by
  unfold lookupDay daily_sales_trend
  rw [find?_key_map
    (fun d => (round2 (dailyRevenue txs d), dailyCount txs d, dailyUniqueCustomers txs d))
    _ _ hd]

theorem mem_sortedDates {txs : List ParsedRow} {d : String} :
    d ∈ insertionSortBy strLeB (datesFirstSeen txs) ↔ ∃ tx ∈ txs, tx.date = d := by
  rw [mem_insertionSortBy]
  unfold datesFirstSeen
  rw [mem_dedupFirst]
  simp [List.mem_map]

theorem find_peak_aux (txs : List ParsedRow) (e : String × ℚ × Nat × Nat)
    (rest : List (String × ℚ × Nat × Nat))
    (htrend : daily_sales_trend txs = e :: rest) :
    ∃ dstar ∈ insertionSortBy strLeB (datesFirstSeen txs),
      find_peak_sales_day txs =
        (dstar, round2 (dailyRevenue txs dstar), dailyCount txs dstar) ∧
      (∀ d ∈ insertionSortBy strLeB (datesFirstSeen txs),
        round2 (dailyRevenue txs d) ≤ round2 (dailyRevenue txs dstar)) ∧
      (∀ d ∈ insertionSortBy strLeB (datesFirstSeen txs),
        round2 (dailyRevenue txs d) = round2 (dailyRevenue txs dstar) →
          lexLe dstar.data d.data = true) := by
  have hkeys : e.1 :: rest.map (fun x => x.1) =
      insertionSortBy strLeB (datesFirstSeen txs) := by
    have h1 := trend_keys txs
    rw [htrend] at h1
    simpa using h1
  have hrp : (e :: rest).map (fun x => (x.1, x.2.1)) =
      (insertionSortBy strLeB (datesFirstSeen txs)).map
        (fun d => (d, round2 (dailyRevenue txs d))) := by
    have h2 : (daily_sales_trend txs).map (fun x => (x.1, x.2.1)) =
        (insertionSortBy strLeB (datesFirstSeen txs)).map
          (fun d => (d, round2 (dailyRevenue txs d))) :=
      map_key_val_pair
        (fun d => (round2 (dailyRevenue txs d), dailyCount txs d, dailyUniqueCustomers txs d))
        (insertionSortBy strLeB (datesFirstSeen txs))
    rw [htrend] at h2
    exact h2
  have hmem0 : listMinStr e.1 (rest.map (fun x => x.1)) ∈
      insertionSortBy strLeB (datesFirstSeen txs) := by
    rw [← hkeys]
    exact listMinStr_mem _ _
  have hle0 : ∀ y ∈ insertionSortBy strLeB (datesFirstSeen txs),
      lexLe (listMinStr e.1 (rest.map (fun x => x.1))).data y.data = true := by
    rw [← hkeys]
    exact listMinStr_le _ _
  have hbr0 : (lookupDay (e :: rest) (listMinStr e.1 (rest.map (fun x => x.1)))).1 =
      round2 (dailyRevenue txs (listMinStr e.1 (rest.map (fun x => x.1)))) := by
    rw [← htrend, lookupDay_trend hmem0]
  have hfp : find_peak_sales_day txs =
      ((peakFold ((e :: rest).map (fun x => (x.1, x.2.1)))
          (listMinStr e.1 (rest.map (fun x => x.1)),
           (lookupDay (e :: rest) (listMinStr e.1 (rest.map (fun x => x.1)))).1)).1,
       (lookupDay (e :: rest)
          (peakFold ((e :: rest).map (fun x => (x.1, x.2.1)))
            (listMinStr e.1 (rest.map (fun x => x.1)),
             (lookupDay (e :: rest) (listMinStr e.1 (rest.map (fun x => x.1)))).1)).1).1,
       (lookupDay (e :: rest)
          (peakFold ((e :: rest).map (fun x => (x.1, x.2.1)))
            (listMinStr e.1 (rest.map (fun x => x.1)),
             (lookupDay (e :: rest) (listMinStr e.1 (rest.map (fun x => x.1)))).1)).1).2.1) := by
    simp only [find_peak_sales_day, htrend]
  set bd0 := listMinStr e.1 (rest.map (fun x => x.1)) with hbd0def
  set best := peakFold ((e :: rest).map (fun x => (x.1, x.2.1)))
      (bd0, (lookupDay (e :: rest) bd0).1) with hbestdef
  have hstar : ∃ dstar ∈ insertionSortBy strLeB (datesFirstSeen txs),
      best = (dstar, round2 (dailyRevenue txs dstar)) := by
    rcases peakFold_eq_acc_or ((e :: rest).map (fun x => (x.1, x.2.1)))
        (bd0, (lookupDay (e :: rest) bd0).1) with heq | ⟨hmem, _⟩
    · refine ⟨bd0, hmem0, ?_⟩
      rw [← hbestdef] at heq
      rw [heq, hbr0]
    · rw [← hbestdef] at hmem
      rw [hrp] at hmem
      rcases List.mem_map.mp hmem with ⟨dstar, hds, heq⟩
      exact ⟨dstar, hds, heq.symm⟩
  rcases hstar with ⟨dstar, hds, hbest⟩
  have hmax : ∀ d ∈ insertionSortBy strLeB (datesFirstSeen txs),
      round2 (dailyRevenue txs d) ≤ round2 (dailyRevenue txs dstar) := by
    intro d hd
    have hmem : (d, round2 (dailyRevenue txs d)) ∈
        (e :: rest).map (fun x => (x.1, x.2.1)) := by
      rw [hrp]
      exact List.mem_map_of_mem _ hd
    have := peakFold_ge_mem ((e :: rest).map (fun x => (x.1, x.2.1)))
      (bd0, (lookupDay (e :: rest) bd0).1) _ hmem
    rw [← hbestdef, hbest] at this
    exact this
  have htie : ∀ d ∈ insertionSortBy strLeB (datesFirstSeen txs),
      round2 (dailyRevenue txs d) = round2 (dailyRevenue txs dstar) →
        lexLe dstar.data d.data = true := by
    intro d hd heq
    have hpw : ((e :: rest).map (fun x => (x.1, x.2.1))).Pairwise
        (fun a b => lexLe a.1.data b.1.data = true) := by
      rw [hrp]
      exact List.pairwise_map.mpr (sorted_insertionSortBy strLeB_trans strLeB_total _)
    have hacc : ∀ z ∈ (e :: rest).map (fun x => (x.1, x.2.1)),
        lexLe bd0.data z.1.data = true := by
      intro z hz
      rw [hrp] at hz
      rcases List.mem_map.mp hz with ⟨dz, hdz, rfl⟩
      exact hle0 dz hdz
    have hmem : (d, round2 (dailyRevenue txs d)) ∈
        (e :: rest).map (fun x => (x.1, x.2.1)) := by
      rw [hrp]
      exact List.mem_map_of_mem _ hd
    have := peakFold_tiebreak ((e :: rest).map (fun x => (x.1, x.2.1)))
      (bd0, (lookupDay (e :: rest) bd0).1) hpw hacc
      (d, round2 (dailyRevenue txs d)) hmem
      (by rw [← hbestdef, hbest]; exact heq)
    rw [← hbestdef, hbest] at this
    exact this
  refine ⟨dstar, hds, ?_, hmax, htie⟩
  rw [hfp, hbest]
  have hlook : lookupDay (e :: rest) dstar =
      (round2 (dailyRevenue txs dstar), dailyCount txs dstar, dailyUniqueCustomers txs dstar) := by
    rw [← htrend, lookupDay_trend hds]
  simp [hlook]

/-- C5: for every non-empty transaction list, `find_peak_sales_day`
returns a date actually occurring in the input together with its reported
daily revenue (the 2-decimal rounding of the summed revenue of that date,
exactly as `daily_sales_trend` reports it); that revenue is maximal among
all dates of the input; and whenever another date's reported revenue ties
the maximum, the returned date is lexicographically smallest — the
earliest date wins. -/
theorem find_peak_sales_day_spec (txs : List ParsedRow) (h : txs ≠ []) :
    (∃ tx ∈ txs, tx.date = (find_peak_sales_day txs).1) ∧
    (find_peak_sales_day txs).2.1 =
      round2 (dailyRevenue txs (find_peak_sales_day txs).1) ∧
    (∀ tx ∈ txs, round2 (dailyRevenue txs tx.date) ≤ (find_peak_sales_day txs).2.1) ∧
    (∀ tx ∈ txs, round2 (dailyRevenue txs tx.date) = (find_peak_sales_day txs).2.1 →
      lexLe (find_peak_sales_day txs).1.data tx.date.data = true) := by
  have hne : daily_sales_trend txs ≠ [] := by
    intro hnil
    have hkeys := trend_keys txs
    rw [hnil] at hkeys
    have hperm := perm_insertionSortBy strLeB (datesFirstSeen txs)
    rw [← hkeys] at hperm
    have hdates : datesFirstSeen txs = [] := hperm.symm.eq_nil
    cases htx : txs with
    | nil => exact h htx
    | cons t ts =>
      rw [htx] at hdates
      simp [datesFirstSeen, dedupFirst] at hdates
  rcases List.exists_cons_of_ne_nil hne with ⟨e, rest, htrend⟩
  rcases find_peak_aux txs e rest htrend with ⟨dstar, hds, hfp, hmax, htie⟩
  have hfp1 : (find_peak_sales_day txs).1 = dstar := by rw [hfp]
  have hfp2 : (find_peak_sales_day txs).2.1 = round2 (dailyRevenue txs dstar) := by rw [hfp]
  refine ⟨?_, ?_, ?_, ?_⟩
  · rw [hfp1]
    exact mem_sortedDates.mp hds
  · rw [hfp1, hfp2]
  · intro tx htx
    rw [hfp2]
    exact hmax tx.date (mem_sortedDates.mpr ⟨tx, htx, rfl⟩)
  · intro tx htx heq
    rw [hfp1]
    rw [hfp2] at heq
    exact htie tx.date (mem_sortedDates.mpr ⟨tx, htx, rfl⟩) heq

theorem find_peak_sales_day_spec_witness :
    ([(⟨"T1", "2024-01-02", "P1", "A", 2, 50, "C1", "East"⟩ : ParsedRow),
      ⟨"T2", "2024-01-01", "P2", "B", 1, 100, "C2", "West"⟩] ≠ []) ∧
    ((∃ tx ∈ [(⟨"T1", "2024-01-02", "P1", "A", 2, 50, "C1", "East"⟩ : ParsedRow),
        ⟨"T2", "2024-01-01", "P2", "B", 1, 100, "C2", "West"⟩],
        tx.date = (find_peak_sales_day
          [⟨"T1", "2024-01-02", "P1", "A", 2, 50, "C1", "East"⟩,
           ⟨"T2", "2024-01-01", "P2", "B", 1, 100, "C2", "West"⟩]).1) ∧
      (find_peak_sales_day
          [⟨"T1", "2024-01-02", "P1", "A", 2, 50, "C1", "East"⟩,
           ⟨"T2", "2024-01-01", "P2", "B", 1, 100, "C2", "West"⟩]).2.1 =
        round2 (dailyRevenue
          [⟨"T1", "2024-01-02", "P1", "A", 2, 50, "C1", "East"⟩,
           ⟨"T2", "2024-01-01", "P2", "B", 1, 100, "C2", "West"⟩]
          (find_peak_sales_day
            [⟨"T1", "2024-01-02", "P1", "A", 2, 50, "C1", "East"⟩,
             ⟨"T2", "2024-01-01", "P2", "B", 1, 100, "C2", "West"⟩]).1) ∧
      (∀ tx ∈ [(⟨"T1", "2024-01-02", "P1", "A", 2, 50, "C1", "East"⟩ : ParsedRow),
          ⟨"T2", "2024-01-01", "P2", "B", 1, 100, "C2", "West"⟩],
        round2 (dailyRevenue
          [⟨"T1", "2024-01-02", "P1", "A", 2, 50, "C1", "East"⟩,
           ⟨"T2", "2024-01-01", "P2", "B", 1, 100, "C2", "West"⟩] tx.date) ≤
          (find_peak_sales_day
            [⟨"T1", "2024-01-02", "P1", "A", 2, 50, "C1", "East"⟩,
             ⟨"T2", "2024-01-01", "P2", "B", 1, 100, "C2", "West"⟩]).2.1) ∧
      (∀ tx ∈ [(⟨"T1", "2024-01-02", "P1", "A", 2, 50, "C1", "East"⟩ : ParsedRow),
          ⟨"T2", "2024-01-01", "P2", "B", 1, 100, "C2", "West"⟩],
        round2 (dailyRevenue
          [⟨"T1", "2024-01-02", "P1", "A", 2, 50, "C1", "East"⟩,
           ⟨"T2", "2024-01-01", "P2", "B", 1, 100, "C2", "West"⟩] tx.date) =
          (find_peak_sales_day
            [⟨"T1", "2024-01-02", "P1", "A", 2, 50, "C1", "East"⟩,
             ⟨"T2", "2024-01-01", "P2", "B", 1, 100, "C2", "West"⟩]).2.1 →
          lexLe (find_peak_sales_day
            [⟨"T1", "2024-01-02", "P1", "A", 2, 50, "C1", "East"⟩,
             ⟨"T2", "2024-01-01", "P2", "B", 1, 100, "C2", "West"⟩]).1.data
            tx.date.data = true)) :=
  ⟨fun hcontra => List.noConfusion hcontra,
   find_peak_sales_day_spec
     [⟨"T1", "2024-01-02", "P1", "A", 2, 50, "C1", "East"⟩,
      ⟨"T2", "2024-01-01", "P2", "B", 1, 100, "C2", "West"⟩]
     (fun hcontra => List.noConfusion hcontra)⟩

end SalesAnalytics
